import Mathlib

/-!
# restic-robot-rclone: output parsing, unit conversion and the backup cycle

A shallow embedding of `main.go`:

* the four compiled patterns (`matchExists`, `matchFileStats`, `matchAddedBytes`,
  `matchProcessed`) over a small regular-expression engine with Go's
  leftmost-first submatch semantics;
* `strconv.Atoi`, `strconv.ParseFloat`, `strings.Split`, `strings.Trim` on the inputs
  the program feeds them;
* `convert`, `extractStats`, `backup.Run`, `backup.ObserveStats`, `backup.Ensure`
  and the start-up sequence of `main`.

Go's `int` is the 64-bit two's-complement integer (the constant `1 << 40` in
`convert` does not fit a 32-bit `int`, so the program only builds where `int` is
64 bits wide).  Go strings are taken to be valid UTF-8 and are modelled by Lean
strings.
-/

namespace ResticRobot

/-! ## Results of Go code -/

/-- Outcome of evaluating a Go function: it returns a value, or a run-time fault
(a Go run-time error that nothing recovers) unwinds it. -/
inductive GoResult (α : Type) where
  | ret (a : α)
  | fault (msg : String)
  deriving DecidableEq, Repr

/-- A Go `error` value, identified by its message. -/
structure GoError where
  msg : String
  deriving DecidableEq, Repr

/-! ## Machine integers -/

/-- Reduction of a mathematical integer to Go's 64-bit `int` (two's complement). -/
def wrapInt64 (z : Int) : Int := (z + 2 ^ 63) % 2 ^ 64 - 2 ^ 63

/-- Largest value of Go's `int`. -/
def maxInt64 : Int := 2 ^ 63 - 1

/-! ## Regular expressions (the fragment of RE2 syntax used by the four patterns) -/

/-- Character classes occurring in the patterns. -/
inductive CharClass where
  /-- The class `[0-9.]`. -/
  | digitDot
  /-- The class `\s`, which in Go is `[\t\n\f\r ]`. -/
  | space
  /-- The class `\w`, which in Go is `[0-9A-Za-z_]`. -/
  | word
  /-- The class `.` without the `s` flag: any character but a line feed. -/
  | dot
  deriving DecidableEq, Repr

/-- Membership of a character in a class. -/
def CharClass.test : CharClass → Char → Bool
  | .digitDot, c => c.isDigit || c == '.'
  | .space, c => c == '\t' || c == '\n' || c == '\x0c' || c == '\r' || c == ' '
  | .word, c => c.isDigit || c.isUpper || c.isLower || c == '_'
  | .dot, c => c != '\n'

/-- Syntax trees of the patterns: literals, greedy repetition of a class,
concatenation, alternation and numbered capture groups. -/
inductive Regex where
  | empty
  | lit (p : List Char)
  | star (k : CharClass)
  | plus (k : CharClass)
  | cat (a b : Regex)
  | alt (a b : Regex)
  | cap (i : Nat) (a : Regex)
  deriving Repr

/-- Concatenation of a sequence of expressions. -/
def Regex.seq : List Regex → Regex
  | [] => .empty
  | r :: rs => .cat r (Regex.seq rs)

/-- Number of capture groups (`Regexp.NumSubexp`). -/
def Regex.NumSubexp : Regex → Nat
  | .empty => 0
  | .lit _ => 0
  | .star _ => 0
  | .plus _ => 0
  | .cat a b => max a.NumSubexp b.NumSubexp
  | .alt a b => max a.NumSubexp b.NumSubexp
  | .cap i a => max i a.NumSubexp

/-- The remainders a greedy `k*` can leave, longest repetition first. -/
def starRests (k : CharClass) : List Char → List (List Char)
  | [] => [[]]
  | x :: xs => if k.test x then starRests k xs ++ [x :: xs] else [x :: xs]

/-- Captured groups so far, most recent first. -/
abbrev Caps := List (Nat × List Char)

/-- All ways the expression matches a prefix of the input, in the order a
backtracking search tries them (Go's leftmost-first preference): each is the
unread remainder together with the groups captured. -/
def Regex.run : Regex → List Char → Caps → List (List Char × Caps)
  | .empty, s, cs => [(s, cs)]
  | .lit p, s, cs => if p.isPrefixOf s then [(s.drop p.length, cs)] else []
  | .star k, s, cs => (starRests k s).map (fun r => (r, cs))
  | .plus k, s, cs =>
    match s with
    | [] => []
    | x :: xs => if k.test x then (starRests k xs).map (fun r => (r, cs)) else []
  | .cat a b, s, cs => (a.run s cs).flatMap (fun p => b.run p.1 p.2)
  | .alt a b, s, cs => a.run s cs ++ b.run s cs
  | .cap i a, s, cs =>
    (a.run s cs).map (fun p => (p.1, (i, s.take (s.length - p.1.length)) :: p.2))

/-- The words the expression denotes (its language). -/
def Regex.Lang : Regex → List Char → Prop
  | .empty, w => w = []
  | .lit p, w => w = p
  | .star k, w => ∀ c ∈ w, k.test c = true
  | .plus k, w => w ≠ [] ∧ ∀ c ∈ w, k.test c = true
  | .cat a b, w => ∃ u v, w = u ++ v ∧ a.Lang u ∧ b.Lang v
  | .alt a b, w => a.Lang w ∨ b.Lang w
  | .cap _ a, w => a.Lang w

/-- The pattern occurs in the text: some stretch of the text is a word of the
language. -/
def Regex.Occurs (re : Regex) (s : String) : Prop :=
  ∃ pre w post, s.data = pre ++ w ++ post ∧ re.Lang w

/-- The submatch slice of one match: the whole match, then one string per group
(the empty string for a group that took no part). Its length is `NumSubexp + 1`. -/
def Regex.submatches (re : Regex) (s : List Char) (p : List Char × Caps) : List String :=
  (List.range (re.NumSubexp + 1)).map (fun i =>
    if i = 0 then String.mk (s.take (s.length - p.1.length))
    else match p.2.lookup i with
      | some t => String.mk t
      | none => "")

/-- One leftmost-first match. -/
structure Found where
  /-- The input from the first character of the match on. -/
  start : List Char
  /-- The input after the match. -/
  rest : List Char
  /-- The submatch slice. -/
  groups : List String
  deriving Repr

/-- Leftmost match at or after the start of the input. -/
def Regex.search (re : Regex) : List Char → Option Found
  | [] => (re.run [] []).head?.map (fun p => ⟨[], p.1, re.submatches [] p⟩)
  | x :: xs =>
    match (re.run (x :: xs) []).head? with
    | some p => some ⟨x :: xs, p.1, re.submatches (x :: xs) p⟩
    | none => re.search xs

/-- The loop of `Regexp.allMatches`: `s` is the input from `pos` on, `prevHere`
says that the previous match ended at `pos`, `n` is the number of matches still
to deliver. An empty match right after the previous match is not delivered, and
the search moves one character forward after an empty match. -/
def Regex.allMatches (re : Regex) : Nat → Nat → List Char → Bool → List (List String)
  | 0, _, _, _ => []
  | _, 0, _, _ => []
  | fuel + 1, n + 1, s, prevHere =>
    match re.search s with
    | none => []
    | some f =>
      if f.rest.length = s.length then
        -- an empty match at `pos`
        match s with
        | [] => if prevHere then [] else [f.groups]
        | _ :: s' =>
          if prevHere then re.allMatches fuel (n + 1) s' false
          else f.groups :: re.allMatches fuel n s' false
      else f.groups :: re.allMatches fuel n f.rest true

/-- The method `Regexp.FindAllStringSubmatch(s, n)`: the submatch slices of the
successive non-overlapping matches, all of them when `n < 0`. -/
def Regex.FindAllStringSubmatch (re : Regex) (s : String) (n : Int) : List (List String) :=
  re.allMatches (2 * s.data.length + 2)
    (if n < 0 then s.data.length + 1 else n.toNat) s.data false

/-- The method `Regexp.MatchString(s)`: whether the input contains a match. -/
def Regex.MatchString (re : Regex) (s : String) : Bool :=
  (re.search s.data).isSome

/-- The pattern `.*already (exists|initialized).*`. -/
def matchExists : Regex :=
  Regex.seq [.star .dot, .lit "already ".data,
    .cap 1 (.alt (.lit "exists".data) (.lit "initialized".data)), .star .dot]

/-- The pattern `Files:\s*([0-9.]*) new,\s*([0-9.]*) changed,\s*([0-9.]*) unmodified`. -/
def matchFileStats : Regex :=
  Regex.seq [.lit "Files:".data, .star .space, .cap 1 (.star .digitDot),
    .lit " new,".data, .star .space, .cap 2 (.star .digitDot),
    .lit " changed,".data, .star .space, .cap 3 (.star .digitDot),
    .lit " unmodified".data]

/-- The pattern `Added to the repo: ([0-9.]+) (\w+)`. -/
def matchAddedBytes : Regex :=
  Regex.seq [.lit "Added to the repo: ".data, .cap 1 (.plus .digitDot),
    .lit " ".data, .cap 2 (.plus .word)]

/-- The pattern `processed ([0-9.]*) files, ([0-9.]+) (\w+)`. -/
def matchProcessed : Regex :=
  Regex.seq [.lit "processed ".data, .cap 1 (.star .digitDot),
    .lit " files, ".data, .cap 2 (.plus .digitDot), .lit " ".data, .cap 3 (.plus .word)]

/-- The restic output of `Test_extractStats`. -/
def testOutput : String :=
  "open repository\nlock repository\nload index files\nusing parent snapshot 38401629\nstart scan on [./test/]\nstart backup on [./test/]\nscan finished in 0.797s: 58 files, 97.870 MiB\n\nFiles:          56 new,     2 changed,     2 unmodified\nDirs:            0 new,     0 changed,     0 unmodified\nData Blobs:     35 new\nTree Blobs:      1 new\nAdded to the repo: 169.009 KiB\n\nprocessed 58 files, 97.870 MiB in 0:00\nsnapshot c7693989 saved"

/-! ## Numbers: `strconv` and float64 -/

/-- The two failure kinds of `strconv` (`ErrSyntax`, `ErrRange`). -/
inductive NumError where
  | ErrSyntax
  | ErrRange
  deriving DecidableEq, Repr

/-- Value of a string of decimal digits. -/
def digitsValue (cs : List Char) : Nat :=
  cs.foldl (fun n c => n * 10 + (c.toNat - '0'.toNat)) 0

/-- The function `strconv.Atoi`: an optional sign and decimal digits. On a syntax
error the value is 0; out of the range of `int` the value is the nearest bound. -/
def Atoi (s : String) : Int × Option NumError :=
  let body : List Char :=
    match s.data with
    | '-' :: t => t
    | '+' :: t => t
    | t => t
  let neg : Bool :=
    match s.data with
    | '-' :: _ => true
    | _ => false
  if body = [] ∨ ¬ body.all Char.isDigit = true then (0, some .ErrSyntax)
  else
    let n : Int := if neg then - (digitsValue body : Int) else (digitsValue body : Int)
    if n > maxInt64 then (maxInt64, some .ErrRange)
    else if n < - 2 ^ 63 then (- 2 ^ 63, some .ErrRange)
    else (n, none)

/-- A float64 that is not negative: a finite value, counted in units of `2^-1074`
(the smallest positive float64, so every finite float64 is a whole number of
units), or `+Inf`, or `NaN`. -/
inductive F64 where
  | fin (units : Nat)
  | inf
  | nan
  deriving DecidableEq, Repr

/-- Number of units of `2^-1074` in 1. -/
def F64.one : Nat := 2 ^ 1074

/-- Binary logarithm by halving; the first argument bounds the number of halvings. -/
def log2Aux : Nat → Nat → Nat
  | 0, _ => 0
  | fuel + 1, n => if n < 2 then 0 else log2Aux fuel (n / 2) + 1

/-- The integer part of the binary logarithm (0 at 0). -/
def log2Floor (n : Nat) : Nat := log2Aux n n

/-- Round-to-nearest, ties-to-even, of the ratio `N / d` (counted in units) to a
significand of 53 bits; below `2^52` units every whole number of units is a
float64 (the subnormals and the first normal binade). -/
def roundNearestEven (N d : Nat) : Nat :=
  let E := log2Floor (N / d) - 52
  let D := d * 2 ^ E
  let q := N / D
  let r := N % D
  let m := if 2 * r < D then q else if D < 2 * r then q + 1 else if q % 2 = 0 then q else q + 1
  m * 2 ^ E

/-- The float64 nearest to `N / d` units; a rounded value of `2^1024` or more
overflows to `+Inf`. -/
def F64.round (N d : Nat) : F64 :=
  let u := roundNearestEven N d
  if u < 2 ^ 1024 * F64.one then .fin u else .inf

/-- The float64 of a natural number (exact up to `2^53`). -/
def F64.ofNat (n : Nat) : F64 := F64.round (n * F64.one) 1

/-- The float64 zero. -/
def F64.zero : F64 := .fin 0

/-- IEEE 754 multiplication (round to nearest even) on the non-negative values. -/
def F64.mul : F64 → F64 → F64
  | .nan, _ => .nan
  | _, .nan => .nan
  | .inf, .fin b => if b = 0 then .nan else .inf
  | .fin a, .inf => if a = 0 then .nan else .inf
  | .inf, .inf => .inf
  | .fin a, .fin b => F64.round (a * b) F64.one

/-- What the target machine makes of a float64 converted to `int` when `int`
cannot represent it: the Go specification leaves that value to the
implementation. -/
structure Machine where
  outOfRange : F64 → Int

/-- The conversion `int(f)`: truncation toward zero. -/
def F64.toInt (mc : Machine) : F64 → Int
  | .fin u => if (u / F64.one : Int) ≤ maxInt64 then (u / F64.one : Nat) else mc.outOfRange (.fin u)
  | f => mc.outOfRange f

/-- The function `strconv.ParseFloat(s, 64)` on the strings the patterns capture,
which consist of digits and dots: the text is a number when it has a digit and at
most one dot, and then the value is the float64 nearest to the decimal (`+Inf` with
`ErrRange` beyond the largest float64); otherwise the value is 0 with `ErrSyntax`.
Signs, exponents, hexadecimal and the named values cannot occur in a capture and
are not modelled: such a text is reported as a syntax error. -/
def ParseFloat (s : String) : F64 × Option NumError :=
  let intPart := s.data.takeWhile Char.isDigit
  let afterInt := s.data.dropWhile Char.isDigit
  let fracPart : List Char :=
    match afterInt with
    | '.' :: t => t
    | _ => []
  let wellFormed : Bool :=
    (match afterInt with
      | [] => true
      | '.' :: t => t.all Char.isDigit
      | _ => false) && !(intPart ++ fracPart).isEmpty
  if wellFormed then
    match F64.round (digitsValue (intPart ++ fracPart) * F64.one) (10 ^ fracPart.length) with
    | .fin u => (.fin u, none)
    | f => (f, some .ErrRange)
  else (F64.zero, some .ErrSyntax)

/-! ## Statistics -/

/-- The record `stats`. -/
structure stats where
  Duration : F64
  FilesNew : Int
  FilesChanged : Int
  FilesUnmodified : Int
  FilesProcessed : Int
  BytesAdded : Int
  BytesProcessed : Int
  deriving DecidableEq, Repr

/-- The zero value of `stats`. -/
def stats.zero : stats := ⟨F64.zero, 0, 0, 0, 0, 0, 0⟩

/-- The function `convert`: the product is taken in `int`, so it wraps. -/
def convert (b : Int) (unit : String) : Int :=
  match unit with
  | "TiB" => wrapInt64 (b * 2 ^ 40)
  | "GiB" => wrapInt64 (b * 2 ^ 30)
  | "MiB" => wrapInt64 (b * 2 ^ 20)
  | "KiB" => wrapInt64 (b * 2 ^ 10)
  | _ => 0

/-- The message of Go's run-time error for `x[0]` on an empty slice. -/
def indexFault : String := "runtime error: index out of range [0] with length 0"

/-- The function `extractStats`. The named results start at their zero values;
indexing the empty match list faults. After each length test the indices used
are in range. -/
def extractStats (mc : Machine) (s : String) : GoResult (stats × Option GoError) :=
  let result := stats.zero
  match matchFileStats.FindAllStringSubmatch s (-1) with
  | [] => .fault indexFault
  | f0 :: _ =>
    if f0.length ≠ 4 then
      .ret (result, some ⟨"matchFileStats expected 4, got " ++ toString f0.length⟩)
    else
      let result := { result with
        FilesNew := (Atoi (f0.getD 1 "")).1
        FilesChanged := (Atoi (f0.getD 2 "")).1
        FilesUnmodified := (Atoi (f0.getD 3 "")).1 }
      match matchAddedBytes.FindAllStringSubmatch s (-1) with
      | [] => .fault indexFault
      | a0 :: _ =>
        if a0.length ≠ 3 then
          .ret (result, some ⟨"matchAddedBytes expected 3, got " ++ toString a0.length⟩)
        else
          let amount := (ParseFloat (a0.getD 1 "")).1
          let amount := amount.mul (F64.ofNat 1000)
          let result := { result with
            BytesAdded := convert (amount.toInt mc) (a0.getD 2 "") }
          match matchProcessed.FindAllStringSubmatch s (-1) with
          | [] => .fault indexFault
          | p0 :: _ =>
            if p0.length ≠ 4 then
              .ret (result, some ⟨"filesProcessed expected 4, got " ++ toString p0.length⟩)
            else
              let result := { result with FilesProcessed := (Atoi (p0.getD 1 "")).1 }
              let amount := (ParseFloat (p0.getD 2 "")).1
              let amount := amount.mul (F64.ofNat 1000)
              let result := { result with
                BytesProcessed := convert (amount.toInt mc) (p0.getD 3 "") }
              .ret (result, none)

/-! ## `strings` -/

/-- Pieces of the text between the occurrences of one separator character. -/
def splitOnChar (sep : Char) : List Char → List (List Char)
  | [] => [[]]
  | c :: cs =>
    if c = sep then [] :: splitOnChar sep cs
    else
      match splitOnChar sep cs with
      | [] => [[c]]
      | p :: ps => (c :: p) :: ps

/-- The function `strings.Split(s, sep)` for a separator of one character, the
way `Run` calls it. -/
def Split (s : String) (sep : Char) : List String :=
  (splitOnChar sep s.data).map String.mk

/-- Splitting a text on white space into its fields, as the specification words
the extra arguments: the maximal runs of characters that are not white space. -/
def fieldsAux : List Char → List Char → List (List Char)
  | [], cur => if cur = [] then [] else [cur.reverse]
  | c :: cs, cur =>
    if c.isWhitespace then
      (if cur = [] then [] else [cur.reverse]) ++ fieldsAux cs []
    else fieldsAux cs (c :: cur)

/-- The fields of a string (see `fieldsAux`). -/
def whitespaceFields (s : String) : List String := (fieldsAux s.data []).map String.mk

/-- The function `strings.Trim(s, cutset)`: the text without its leading and
trailing characters that belong to the cutset. -/
def Trim (s cutset : String) : String :=
  String.mk (((s.data.dropWhile (fun c => cutset.data.contains c)).reverse.dropWhile
    (fun c => cutset.data.contains c)).reverse)

/-! ## Configuration, metrics and the environment of a cycle -/

/-- The configuration fields of the struct `backup`. -/
structure backup where
  Schedule : String
  Repository : String
  Password : String
  Args : String
  RunOnBoot : Bool
  PrometheusEndpoint : String
  PrometheusAddress : String
  PreCommand : String
  PostCommand : String
  RcloneArgs : String
  deriving DecidableEq, Repr

/-- A subprocess the program starts. -/
inductive Call where
  /-- The pre-command of the configuration. -/
  | preCommand
  /-- The backup tool `restic` with its arguments. -/
  | restic (args : List String)
  /-- The post-command of the configuration. -/
  | postCommand
  deriving DecidableEq, Repr

/-- The metric fields of the struct `backup`, which `Run` mutates, and the
subprocesses started so far. A counter holds its count; a histogram holds the
values observed, oldest first (an integer field is observed as `float64` of the
integer listed). -/
structure State where
  backupsTotal : Nat
  backupsSuccessful : Nat
  backupsFailed : Nat
  backupDuration : List F64
  filesNew : List Int
  filesChanged : List Int
  filesUnmodified : List Int
  filesProcessed : List Int
  bytesAdded : List Int
  bytesProcessed : List Int
  calls : List Call
  deriving DecidableEq, Repr

/-- The state at start-up: counters at zero, nothing observed, nothing started. -/
def State.init : State := ⟨0, 0, 0, [], [], [], [], [], [], [], []⟩

/-- What `exec.Cmd.Run` leaves behind: both captured streams and the error, which
is present when the command could not be run or exited non-zero. -/
structure CmdOutput where
  stdout : String
  stderr : String
  err : Option GoError
  deriving DecidableEq, Repr

/-- The environment of the program. The methods `executePreCommand` and
`executePostCommand` are not in `main.go`; what they return (the captured
standard output, or an error) is a parameter here, like the outcome of every
`restic` invocation, the seconds `time.Since` measures and the target machine. -/
structure World where
  executePreCommand : backup → Except GoError String
  restic : List String → CmdOutput
  executePostCommand : backup → Except GoError String
  elapsed : F64
  machine : Machine

/-- The method `Counter.Inc` on `backupsFailed`. -/
def State.incFailed (st : State) : State := { st with backupsFailed := st.backupsFailed + 1 }

/-- The method `Counter.Inc` on `backupsTotal`. -/
def State.incTotal (st : State) : State := { st with backupsTotal := st.backupsTotal + 1 }

/-- The method `Counter.Inc` on `backupsSuccessful`. -/
def State.incSuccessful (st : State) : State :=
  { st with backupsSuccessful := st.backupsSuccessful + 1 }

/-- Starting a subprocess. -/
def State.exec (st : State) (c : Call) : State := { st with calls := st.calls ++ [c] }

/-- The method `backup.ObserveStats`: every field goes to its histogram. -/
def backup.ObserveStats (st : State) (statistics : stats) : State :=
  { st with
    filesNew := st.filesNew ++ [statistics.FilesNew]
    backupDuration := st.backupDuration ++ [statistics.Duration]
    filesChanged := st.filesChanged ++ [statistics.FilesChanged]
    filesUnmodified := st.filesUnmodified ++ [statistics.FilesUnmodified]
    filesProcessed := st.filesProcessed ++ [statistics.FilesProcessed]
    bytesAdded := st.bytesAdded ++ [statistics.BytesAdded]
    bytesProcessed := st.bytesProcessed ++ [statistics.BytesProcessed] }

/-- How a call of `Run` ends: it returns, or a run-time fault unwinds it; either
way with the state reached. -/
inductive RunResult where
  | returned (st : State)
  | faulted (st : State) (msg : String)
  deriving DecidableEq, Repr

/-- The argument list `Run` builds for `restic`. -/
def backup.args (b : backup) : List String :=
  let args := ["backup"]
  let args := if b.RcloneArgs.length > 0 then (args ++ ["-o"]) ++ [b.RcloneArgs] else args
  args ++ Split b.Args ' '

/-- The argument list in the specification's words: the base subcommand, the
flag and value for the sync tool when its argument string is not empty, and the
extra arguments split on white space. -/
def backup.argsBySpec (b : backup) : List String :=
  ["backup"] ++ (if b.RcloneArgs = "" then [] else ["-o", b.RcloneArgs])
    ++ whitespaceFields b.Args

/-- The end of `Run`, from `extractStats` on. -/
def backup.runStats (w : World) (st : State) (out : String) : RunResult :=
  match extractStats w.machine out with
  | .fault msg => .faulted st msg
  | .ret (statistics, _) =>
    let statistics := { statistics with Duration := w.elapsed }
    let st := st.incSuccessful
    let st := st.incTotal
    .returned (backup.ObserveStats st statistics)

/-- The middle of `Run`: the backup command, then the post-command. -/
def backup.runBackup (b : backup) (w : World) (st : State) : RunResult :=
  let args := b.args
  let st := st.exec (.restic args)
  let cmd := w.restic args
  match cmd.err with
  | some _ => .returned st.incFailed.incTotal
  | none =>
    if b.PostCommand.length > 0 then
      let st := st.exec .postCommand
      match w.executePostCommand b with
      | .error _ => .returned st.incFailed.incTotal
      | .ok _ => backup.runStats w st cmd.stdout
    else backup.runStats w st cmd.stdout

/-- The method `backup.Run`: one backup cycle. -/
def backup.Run (b : backup) (w : World) (st : State) : RunResult :=
  if b.PreCommand.length > 0 then
    let st := st.exec .preCommand
    match w.executePreCommand b with
    | .error _ => .returned st.incFailed.incTotal
    | .ok _ => b.runBackup w st
  else b.runBackup w st

/-- The function `errors.Wrap`: the message in front of the cause. -/
def Wrap (err : GoError) (message : String) : GoError := ⟨message ++ ": " ++ err.msg⟩

/-- The method `backup.Ensure`: `restic init`, with its standard error captured. -/
def backup.Ensure (w : World) : Option GoError :=
  let cmd := w.restic ["init"]
  match cmd.err with
  | some err =>
    if matchExists.MatchString (Trim cmd.stderr " \n\r") then none
    else some (Wrap err cmd.stderr)
  | none => none

/-- What `main` does, in order. -/
inductive Step where
  /-- The call `logger.Fatal`: the message is logged and the process exits. -/
  | fatal (msg : String)
  /-- The repository is ensured. -/
  | ensure
  /-- The metrics server is started. -/
  | startMetricsServer
  /-- The job is added to the scheduler. -/
  | addJob
  /-- The cycle run at start-up and how it ended. -/
  | runOnBoot (r : RunResult)
  /-- The scheduler is started (`cr.Run()`), which does not return. -/
  | cronRun
  deriving DecidableEq, Repr

/-- The inputs of `main`: what `envconfig.Process` loads or fails with, what
`cr.AddJob` answers, and the environment. -/
structure Startup where
  config : Except GoError backup
  addJob : Option GoError
  world : World

/-- The function `main`. A fault in the cycle run at start-up ends the process. -/
def main (e : Startup) : List Step :=
  match e.config with
  | .error _ => [.fatal "failed to configure"]
  | .ok b =>
    match backup.Ensure e.world with
    | some _ => [.ensure, .fatal "failed to ensure repository"]
    | none =>
      match e.addJob with
      | some _ => [.ensure, .startMetricsServer, .addJob, .fatal "failed to schedule task"]
      | none =>
        if b.RunOnBoot then
          match b.Run e.world State.init with
          | .returned st => [.ensure, .startMetricsServer, .addJob, .runOnBoot (.returned st), .cronRun]
          | .faulted st msg => [.ensure, .startMetricsServer, .addJob, .runOnBoot (.faulted st msg)]
        else [.ensure, .startMetricsServer, .addJob, .cronRun]

/-- A sequence of cycles, one environment per cycle; a fault ends the sequence. -/
def runCycles (b : backup) : List World → State → RunResult
  | [], st => .returned st
  | w :: ws, st =>
    match b.Run w st with
    | .returned st' => runCycles b ws st'
    | .faulted st' msg => .faulted st' msg

/-- A target machine, for evaluation (amd64 yields the least `int`). -/
def amd64 : Machine := ⟨fun _ => - 2 ^ 63⟩

/-- The two states hold the same observations in every histogram. -/
def State.sameObservations (a b : State) : Prop :=
  a.backupDuration = b.backupDuration ∧ a.filesNew = b.filesNew
    ∧ a.filesChanged = b.filesChanged ∧ a.filesUnmodified = b.filesUnmodified
    ∧ a.filesProcessed = b.filesProcessed ∧ a.bytesAdded = b.bytesAdded
    ∧ a.bytesProcessed = b.bytesProcessed

/-- The pre-command, when one is configured. -/
def backup.preCalls (b : backup) : List Call :=
  if b.PreCommand.length > 0 then [.preCommand] else []

/-- A configuration for evaluation: no pre-command, no post-command, no sync-tool
arguments, the directory `./test/` as the extra argument. -/
def sampleBackup : backup :=
  ⟨"@daily", "repo", "secret", "./test/", false, "/metrics", ":8080", "", "", ""⟩

/-- An environment for evaluation in which every command succeeds and `restic`
prints the output of `Test_extractStats`. -/
def sampleWorld : World :=
  ⟨fun _ => .ok "", fun _ => ⟨testOutput, "", none⟩, fun _ => .ok "", F64.ofNat 2, amd64⟩

/-- The state after one cycle of `sampleBackup` in `sampleWorld` from `State.init`. -/
def sampleAfter : State :=
  ⟨1, 1, 0, [F64.ofNat 2], [56], [2], [2], [58], [173065216], [102624133120],
    [.restic ["backup", "./test/"]]⟩

/-- A configuration for evaluation without extra arguments. -/
def bareBackup : backup :=
  ⟨"@daily", "repo", "secret", "", false, "/metrics", ":8080", "", "", ""⟩

/-- An output for evaluation whose sizes read `1.001 KiB`. -/
def thousandthOutput : String :=
  "Files: 1 new, 0 changed, 0 unmodified\nAdded to the repo: 1.001 KiB\nprocessed 1 files, 1.001 KiB"

/-- An output for evaluation with the `Files:` line only. -/
def filesOnlyOutput : String := "Files: 1 new, 2 changed, 3 unmodified"

/-- An environment for evaluation in which every command succeeds and `restic`
prints nothing. -/
def silentWorld : World :=
  ⟨fun _ => .ok "", fun _ => ⟨"", "", none⟩, fun _ => .ok "", F64.ofNat 2, amd64⟩

/-- The first `Files:` match in the test output. -/
def testFiles : List String :=
  ["Files:          56 new,     2 changed,     2 unmodified", "56", "2", "2"]

/-- The first `Added to the repo:` match in the test output. -/
def testAdded : List String := ["Added to the repo: 169.009 KiB", "169.009", "KiB"]

/-- The first `processed` match in the test output. -/
def testProcessed : List String := ["processed 58 files, 97.870 MiB", "58", "97.870", "MiB"]

/-- An environment for evaluation in which `restic init` finds the repository
already set up. -/
def initializedWorld : World :=
  ⟨fun _ => .ok "", fun _ => ⟨"", "Fatal: create key in repository failed: repository master key and config already initialized\n", some ⟨"exit status 1"⟩⟩,
    fun _ => .ok "", F64.ofNat 2, amd64⟩

/-- An environment for evaluation in which `restic` exits non-zero. -/
def failingWorld : World :=
  ⟨fun _ => .ok "", fun _ => ⟨"", "Fatal: unable to open repository", some ⟨"exit status 1"⟩⟩,
    fun _ => .ok "", F64.ofNat 2, amd64⟩

/-! ## The matcher finds exactly the words of the language -/

theorem self_mem_starRests (k : CharClass) (s : List Char) : s ∈ starRests k s := by
  cases s with
  | nil => simp [starRests]
  | cons x xs =>
    unfold starRests
    split <;> simp

theorem mem_starRests (k : CharClass) (rest : List Char) (s : List Char) :
    rest ∈ starRests k s ↔ ∃ w, s = w ++ rest ∧ ∀ c ∈ w, k.test c = true := by
  induction s with
  | nil =>
    simp only [starRests, List.mem_singleton]
    constructor
    · intro h
      exact ⟨[], by simp [h], by simp⟩
    · rintro ⟨w, hw, -⟩
      have h := List.append_eq_nil.1 hw.symm
      exact h.2
  | cons x xs ih =>
    unfold starRests
    by_cases hx : k.test x = true
    · simp only [hx, if_true, List.mem_append, List.mem_singleton]
      constructor
      · rintro (h | h)
        · obtain ⟨w, hw, hall⟩ := ih.1 h
          refine ⟨x :: w, by simp [hw], ?_⟩
          intro c hc
          rcases List.mem_cons.1 hc with rfl | hc
          · exact hx
          · exact hall c hc
        · exact ⟨[], by simp [h], by simp⟩
      · rintro ⟨w, hw, hall⟩
        cases w with
        | nil => exact Or.inr (by simpa using hw.symm)
        | cons c w' =>
          left
          simp only [List.cons_append, List.cons.injEq] at hw
          exact ih.2 ⟨w', hw.2, fun c hc => hall c (List.mem_cons_of_mem _ hc)⟩
    · rw [Bool.not_eq_true] at hx
      simp only [hx, Bool.false_eq_true, if_false, List.mem_singleton]
      constructor
      · intro h
        exact ⟨[], by simp [h], by simp⟩
      · rintro ⟨w, hw, hall⟩
        cases w with
        | nil => simpa using hw.symm
        | cons c w' =>
          simp only [List.cons_append, List.cons.injEq] at hw
          have := hall c (List.mem_cons_self _ _)
          rw [← hw.1, hx] at this
          exact absurd this (by decide)

theorem run_iff (r : Regex) : ∀ (s rest : List Char) (cs : Caps),
    (∃ cs', (rest, cs') ∈ r.run s cs) ↔ ∃ w, s = w ++ rest ∧ r.Lang w := by
  induction r with
  | empty =>
    intro s rest cs
    simp only [Regex.run, Regex.Lang, List.mem_singleton, Prod.mk.injEq]
    constructor
    · rintro ⟨cs', h, -⟩
      exact ⟨[], by simp [h], rfl⟩
    · rintro ⟨w, hw, rfl⟩
      exact ⟨cs, by simpa using hw.symm, rfl⟩
  | lit p =>
    intro s rest cs
    simp only [Regex.run, Regex.Lang]
    constructor
    · rintro ⟨cs', h⟩
      by_cases hp : p.isPrefixOf s = true
      · obtain ⟨t, ht⟩ := List.isPrefixOf_iff_prefix.1 hp
        subst ht
        simp only [hp, if_true, List.mem_singleton, Prod.mk.injEq, List.drop_left] at h
        exact ⟨p, by rw [h.1], rfl⟩
      · simp [hp] at h
    · rintro ⟨w, hw, rfl⟩
      subst hw
      have hp : w.isPrefixOf (w ++ rest) = true :=
        List.isPrefixOf_iff_prefix.2 (List.prefix_append _ _)
      exact ⟨cs, by simp [hp]⟩
  | star k =>
    intro s rest cs
    simp only [Regex.run, Regex.Lang, List.mem_map, Prod.mk.injEq]
    constructor
    · rintro ⟨cs', r, hr, rfl, -⟩
      exact (mem_starRests k r s).1 hr
    · intro h
      exact ⟨cs, rest, (mem_starRests k rest s).2 h, rfl, rfl⟩
  | plus k =>
    intro s rest cs
    simp only [Regex.run, Regex.Lang]
    cases s with
    | nil =>
      constructor
      · rintro ⟨cs', h⟩
        simp at h
      · rintro ⟨w, hw, hne, -⟩
        exact absurd (List.append_eq_nil.1 hw.symm).1 hne
    | cons x xs =>
      by_cases hx : k.test x = true
      · simp only [hx, if_true, List.mem_map, Prod.mk.injEq]
        constructor
        · rintro ⟨cs', r, hr, rfl, -⟩
          obtain ⟨w, hw, hall⟩ := (mem_starRests k r xs).1 hr
          refine ⟨x :: w, by simp [hw], by simp, ?_⟩
          intro c hc
          rcases List.mem_cons.1 hc with rfl | hc
          · exact hx
          · exact hall c hc
        · rintro ⟨w, hw, hne, hall⟩
          cases w with
          | nil => exact absurd rfl hne
          | cons c w' =>
            simp only [List.cons_append, List.cons.injEq] at hw
            exact ⟨cs, rest, (mem_starRests k rest xs).2
              ⟨w', hw.2, fun c hc => hall c (List.mem_cons_of_mem _ hc)⟩, rfl, rfl⟩
      · rw [Bool.not_eq_true] at hx
        simp only [hx, Bool.false_eq_true, if_false, List.not_mem_nil, exists_false, false_iff]
        rintro ⟨w, hw, hne, hall⟩
        cases w with
        | nil => exact hne rfl
        | cons c w' =>
          simp only [List.cons_append, List.cons.injEq] at hw
          have := hall c (List.mem_cons_self _ _)
          rw [← hw.1, hx] at this
          exact absurd this (by decide)
  | cat a b iha ihb =>
    intro s rest cs
    simp only [Regex.run, Regex.Lang, List.mem_flatMap]
    constructor
    · rintro ⟨cs', ⟨mid, csm⟩, hm, hb⟩
      obtain ⟨u, hu, hua⟩ := (iha s mid cs).1 ⟨csm, hm⟩
      obtain ⟨v, hv, hvb⟩ := (ihb mid rest csm).1 ⟨cs', hb⟩
      exact ⟨u ++ v, by rw [hu, hv, List.append_assoc], u, v, rfl, hua, hvb⟩
    · rintro ⟨w, hw, u, v, rfl, hua, hvb⟩
      obtain ⟨csm, hm⟩ := (iha s (v ++ rest) cs).2 ⟨u, by rw [hw, List.append_assoc], hua⟩
      obtain ⟨cs', hb⟩ := (ihb (v ++ rest) rest csm).2 ⟨v, rfl, hvb⟩
      exact ⟨cs', (v ++ rest, csm), hm, hb⟩
  | alt a b iha ihb =>
    intro s rest cs
    simp only [Regex.run, Regex.Lang, List.mem_append]
    constructor
    · rintro ⟨cs', h | h⟩
      · obtain ⟨w, hw, hl⟩ := (iha s rest cs).1 ⟨cs', h⟩
        exact ⟨w, hw, Or.inl hl⟩
      · obtain ⟨w, hw, hl⟩ := (ihb s rest cs).1 ⟨cs', h⟩
        exact ⟨w, hw, Or.inr hl⟩
    · rintro ⟨w, hw, hl | hl⟩
      · obtain ⟨cs', h⟩ := (iha s rest cs).2 ⟨w, hw, hl⟩
        exact ⟨cs', Or.inl h⟩
      · obtain ⟨cs', h⟩ := (ihb s rest cs).2 ⟨w, hw, hl⟩
        exact ⟨cs', Or.inr h⟩
  | cap i a ih =>
    intro s rest cs
    simp only [Regex.run, Regex.Lang, List.mem_map, Prod.mk.injEq]
    constructor
    · rintro ⟨cs', ⟨r, c⟩, hm, rfl, -⟩
      exact (ih s r cs).1 ⟨c, hm⟩
    · intro h
      obtain ⟨c, hm⟩ := (ih s rest cs).2 h
      exact ⟨_, (rest, c), hm, rfl, rfl⟩

theorem run_ne_nil_iff (r : Regex) (s : List Char) (cs : Caps) :
    (r.run s cs).head?.isSome = true ↔ ∃ w rest, s = w ++ rest ∧ r.Lang w := by
  constructor
  · intro h
    cases hr : r.run s cs with
    | nil => simp [hr] at h
    | cons p ps =>
      obtain ⟨w, hw, hl⟩ := (run_iff r s p.1 cs).1 ⟨p.2, by simp [hr]⟩
      exact ⟨w, p.1, hw, hl⟩
  · rintro ⟨w, rest, hw, hl⟩
    obtain ⟨cs', h⟩ := (run_iff r s rest cs).2 ⟨w, hw, hl⟩
    cases hr : r.run s cs with
    | nil => simp [hr] at h
    | cons p ps => simp

theorem search_isSome_iff (re : Regex) (s : List Char) :
    (re.search s).isSome = true ↔ ∃ pre w post, s = pre ++ w ++ post ∧ re.Lang w := by
  induction s with
  | nil =>
    simp only [Regex.search, Option.isSome_map']
    rw [run_ne_nil_iff]
    constructor
    · rintro ⟨w, rest, hw, hl⟩
      exact ⟨[], w, rest, by simpa using hw, hl⟩
    · rintro ⟨pre, w, post, hs, hl⟩
      have h1 := List.append_eq_nil.1 hs.symm
      have h2 := List.append_eq_nil.1 h1.1
      exact ⟨w, post, by simp [h1.2, h2.2], hl⟩
  | cons x xs ih =>
    unfold Regex.search
    cases hr : (re.run (x :: xs) []).head? with
    | some p =>
      simp only [Option.isSome_some, true_iff]
      have h : (re.run (x :: xs) []).head?.isSome = true := by simp [hr]
      obtain ⟨w, rest, hw, hl⟩ := (run_ne_nil_iff re (x :: xs) []).1 h
      exact ⟨[], w, rest, by simpa using hw, hl⟩
    | none =>
      simp only []
      rw [ih]
      constructor
      · rintro ⟨pre, w, post, hs, hl⟩
        exact ⟨x :: pre, w, post, by simp [hs], hl⟩
      · rintro ⟨pre, w, post, hs, hl⟩
        cases pre with
        | nil =>
          have h : (re.run (x :: xs) []).head?.isSome = true :=
            (run_ne_nil_iff re (x :: xs) []).2 ⟨w, post, by simpa using hs, hl⟩
          simp [hr] at h
        | cons c pre' =>
          simp only [List.cons_append, List.cons.injEq] at hs
          exact ⟨pre', w, post, hs.2, hl⟩

theorem MatchString_iff_Occurs (re : Regex) (s : String) :
    re.MatchString s = true ↔ re.Occurs s := by
  unfold Regex.MatchString Regex.Occurs
  exact search_isSome_iff re s.data

theorem matchExists_Occurs (s : String) :
    matchExists.Occurs s ↔
      "already exists".data <:+: s.data ∨ "already initialized".data <:+: s.data := by
  unfold Regex.Occurs
  constructor
  · rintro ⟨pre, w, post, hs, hl⟩
    simp only [matchExists, Regex.seq, Regex.Lang] at hl
    obtain ⟨u1, v1, rfl, -, u2, v2, rfl, rfl, u3, v3, rfl, h3, u4, v4, rfl, -, rfl⟩ := hl
    rcases h3 with rfl | rfl
    · left
      exact ⟨pre ++ u1, u4 ++ post, by rw [hs]; simp⟩
    · right
      exact ⟨pre ++ u1, u4 ++ post, by rw [hs]; simp⟩
  · rintro (⟨a, b, h⟩ | ⟨a, b, h⟩)
    · refine ⟨a, "already exists".data, b, h.symm, ?_⟩
      simp only [matchExists, Regex.seq, Regex.Lang]
      exact ⟨[], _, rfl, by simp, "already ".data, _, rfl, rfl, "exists".data, [], rfl,
        Or.inl rfl, [], [], rfl, by simp, rfl⟩
    · refine ⟨a, "already initialized".data, b, h.symm, ?_⟩
      simp only [matchExists, Regex.seq, Regex.Lang]
      exact ⟨[], _, rfl, by simp, "already ".data, _, rfl, rfl, "initialized".data, [], rfl,
        Or.inr rfl, [], [], rfl, by simp, rfl⟩

/-! ## Ensuring the repository -/

/-- C6: when `restic init` fails, `Ensure` returns nil exactly when the captured
error output, trimmed of spaces and line breaks, contains "already exists" or
"already initialized"; on every other failure text it returns an error, and then
`main` logs the fatal error and ends without adding the job, running a cycle or
starting the scheduler. When `restic init` succeeds `Ensure` returns nil. -/
theorem Ensure_tolerates_existing (w : World) :
    (∀ err, (w.restic ["init"]).err = some err →
      (backup.Ensure w = none ↔
        ("already exists".data <:+: (Trim (w.restic ["init"]).stderr " \n\r").data
          ∨ "already initialized".data <:+: (Trim (w.restic ["init"]).stderr " \n\r").data)))
    ∧ (∀ (b : backup) (addJob : Option GoError), backup.Ensure w ≠ none →
        main ⟨.ok b, addJob, w⟩ = [.ensure, .fatal "failed to ensure repository"])
    ∧ ((w.restic ["init"]).err = none → backup.Ensure w = none) := by
  refine ⟨fun err herr => ?_, fun b addJob hne => ?_, fun hok => ?_⟩
  · rw [← matchExists_Occurs, ← MatchString_iff_Occurs]
    unfold backup.Ensure
    simp only [herr]
    by_cases hm : matchExists.MatchString (Trim (w.restic ["init"]).stderr " \n\r") = true
    · simp [hm]
    · simp [hm]
  · unfold main
    cases he : backup.Ensure w with
    | none => exact absurd he hne
    | some e => simp
  · unfold backup.Ensure
    simp [hok]

set_option maxRecDepth 100000 in
/-- C6 witness: `restic init` fails on a repository that is already initialized. -/
theorem Ensure_tolerates_existing_witness :
    (initializedWorld.restic ["init"]).err = some ⟨"exit status 1"⟩
      ∧ backup.Ensure initializedWorld = none :=
  ⟨rfl, ((Ensure_tolerates_existing initializedWorld).1 ⟨"exit status 1"⟩ rfl).2
    (Or.inr (by decide!))⟩

/-! ## The binary logarithm used in rounding -/

theorem log2Aux_bounds (fuel : Nat) :
    ∀ n, n ≤ fuel → 0 < n → 2 ^ log2Aux fuel n ≤ n ∧ n < 2 ^ (log2Aux fuel n + 1) := by
  induction fuel with
  | zero =>
    intro n h0 h1
    omega
  | succ fuel ih =>
    intro n h0 h1
    unfold log2Aux
    by_cases h2 : n < 2
    · have : n = 1 := by omega
      subst this
      simp
    · simp only [h2, if_false]
      obtain ⟨ha, hb⟩ := ih (n / 2) (by omega) (by omega)
      have e1 : 2 ^ (log2Aux fuel (n / 2) + 1) = 2 * 2 ^ log2Aux fuel (n / 2) := by
        rw [pow_succ, Nat.mul_comm]
      have e2 : 2 ^ (log2Aux fuel (n / 2) + 1 + 1) = 2 * 2 ^ (log2Aux fuel (n / 2) + 1) := by
        rw [pow_succ, Nat.mul_comm]
      rw [e2]
      rw [e1] at hb ⊢
      omega

theorem log2Floor_bounds (n : Nat) (h : 0 < n) :
    2 ^ log2Floor n ≤ n ∧ n < 2 ^ (log2Floor n + 1) :=
  log2Aux_bounds n n (Nat.le_refl n) h

theorem roundNearestEven_nearest (N d : Nat) (hd : 0 < d) :
    2 ^ (log2Floor (N / d) - 52) ∣ roundNearestEven N d
      ∧ 2 * (roundNearestEven N d * d - N) ≤ d * 2 ^ (log2Floor (N / d) - 52)
      ∧ 2 * (N - roundNearestEven N d * d) ≤ d * 2 ^ (log2Floor (N / d) - 52) := by
  simp only [roundNearestEven]
  generalize log2Floor (N / d) - 52 = E
  have hD : 0 < d * 2 ^ E := Nat.mul_pos hd (pow_pos (by decide) E)
  have key : ∀ m : Nat, m * 2 ^ E * d = m * (d * 2 ^ E) := by
    intro m
    ring
  simp only [key]
  generalize d * 2 ^ E = D at hD ⊢
  have hN := Nat.div_add_mod N D
  have hr := Nat.mod_lt N hD
  rw [Nat.mul_comm D (N / D)] at hN
  refine ⟨?_, ?_, ?_⟩
  · exact Dvd.intro_left _ rfl
  · split_ifs <;> (try simp only [Nat.add_mul, Nat.one_mul]) <;> generalize N / D * D = X at * <;> omega
  · split_ifs <;> (try simp only [Nat.add_mul, Nat.one_mul]) <;> generalize N / D * D = X at * <;> omega

/-! ## The match list -/

theorem submatches_length (re : Regex) (s : List Char) (p : List Char × Caps) :
    (re.submatches s p).length = re.NumSubexp + 1 := by
  simp [Regex.submatches]

theorem search_groups_length (re : Regex) (s : List Char) :
    ∀ f : Found, re.search s = some f → f.groups.length = re.NumSubexp + 1 := by
  induction s with
  | nil =>
    intro f h
    simp only [Regex.search, Option.map_eq_some'] at h
    obtain ⟨p, -, rfl⟩ := h
    exact submatches_length re [] p
  | cons x xs ih =>
    intro f h
    unfold Regex.search at h
    cases hr : (re.run (x :: xs) []).head? with
    | some p =>
      simp only [hr, Option.some.injEq] at h
      subst h
      exact submatches_length re (x :: xs) p
    | none =>
      simp only [hr] at h
      exact ih f h

theorem allMatches_first (re : Regex) (fuel n : Nat) (s : List Char) :
    (re.allMatches (fuel + 1) (n + 1) s false = [] ↔ re.search s = none)
    ∧ (∀ g gs, re.allMatches (fuel + 1) (n + 1) s false = g :: gs →
        ∃ f, re.search s = some f ∧ f.groups = g) := by
  rw [Regex.allMatches]
  cases hs : re.search s with
  | none => simp
  | some f =>
    by_cases he : f.rest.length = s.length
    · cases s with
      | nil => simp [he]
      | cons c s' =>
        simp only [he, if_true, Bool.false_eq_true, if_false]
        simp
    · simp [he]

theorem FindAll_eq_nil_iff (re : Regex) (s : String) :
    re.FindAllStringSubmatch s (-1) = [] ↔ ¬ re.Occurs s := by
  unfold Regex.FindAllStringSubmatch
  rw [if_pos (by decide), (allMatches_first re (2 * s.data.length + 1) s.data.length s.data).1,
    ← MatchString_iff_Occurs]
  unfold Regex.MatchString
  cases re.search s.data <;> simp

theorem FindAll_head_length (re : Regex) (s : String) (g : List String)
    (gs : List (List String)) (h : re.FindAllStringSubmatch s (-1) = g :: gs) :
    g.length = re.NumSubexp + 1 := by
  unfold Regex.FindAllStringSubmatch at h
  rw [if_pos (by decide)] at h
  obtain ⟨f, hf, rfl⟩ :=
    (allMatches_first re (2 * s.data.length + 1) s.data.length s.data).2 g gs h
  exact search_groups_length re s.data f hf

theorem FindAll_of_Occurs (re : Regex) (s : String) (h : re.Occurs s) :
    ∃ g gs, re.FindAllStringSubmatch s (-1) = g :: gs := by
  cases hl : re.FindAllStringSubmatch s (-1) with
  | nil => exact absurd h ((FindAll_eq_nil_iff re s).1 hl)
  | cons g gs => exact ⟨g, gs, rfl⟩

/-! ## Parsing the output -/

theorem extractStats_fault_of_no_files (mc : Machine) (s : String)
    (h : ¬ matchFileStats.Occurs s) : extractStats mc s = .fault indexFault := by
  unfold extractStats
  simp only [(FindAll_eq_nil_iff matchFileStats s).2 h]

theorem extractStats_of_matches (mc : Machine) (s : String) (f a p : List String)
    (fs as ps : List (List String))
    (hf : matchFileStats.FindAllStringSubmatch s (-1) = f :: fs)
    (ha : matchAddedBytes.FindAllStringSubmatch s (-1) = a :: as)
    (hp : matchProcessed.FindAllStringSubmatch s (-1) = p :: ps) :
    extractStats mc s = .ret (⟨F64.zero,
      (Atoi (f.getD 1 "")).1, (Atoi (f.getD 2 "")).1, (Atoi (f.getD 3 "")).1,
      (Atoi (p.getD 1 "")).1,
      convert (((ParseFloat (a.getD 1 "")).1.mul (F64.ofNat 1000)).toInt mc) (a.getD 2 ""),
      convert (((ParseFloat (p.getD 2 "")).1.mul (F64.ofNat 1000)).toInt mc) (p.getD 3 "")⟩,
      none) := by
  have lf : f.length = 4 := FindAll_head_length matchFileStats s f fs hf
  have la : a.length = 3 := FindAll_head_length matchAddedBytes s a as ha
  have lp : p.length = 4 := FindAll_head_length matchProcessed s p ps hp
  unfold extractStats
  simp only [hf, ha, hp, lf, la, lp, ne_eq, not_true_eq_false, if_false, stats.zero]

theorem toInt_fin (mc : Machine) (u : Nat) (h : ((u / F64.one : Nat) : Int) ≤ maxInt64) :
    F64.toInt mc (.fin u) = ((u / F64.one : Nat) : Int) := by
  unfold F64.toInt
  simp only [Int.ofNat_ediv] at h
  simp [h]

theorem Occurs_of_FindAll (re : Regex) (s : String) (g : List String)
    (gs : List (List String)) (h : re.FindAllStringSubmatch s (-1) = g :: gs) :
    re.Occurs s := by
  by_contra hn
  rw [(FindAll_eq_nil_iff re s).2 hn] at h
  exact List.noConfusion h

theorem extractStats_fault_of_no_added (mc : Machine) (s : String)
    (hf : matchFileStats.Occurs s) (ha : ¬ matchAddedBytes.Occurs s) :
    extractStats mc s = .fault indexFault := by
  obtain ⟨f, fs, hf⟩ := FindAll_of_Occurs _ s hf
  have lf : f.length = 4 := FindAll_head_length matchFileStats s f fs hf
  unfold extractStats
  simp only [hf, lf, (FindAll_eq_nil_iff matchAddedBytes s).2 ha, ne_eq, not_true_eq_false,
    if_false]

theorem extractStats_fault_of_no_processed (mc : Machine) (s : String)
    (hf : matchFileStats.Occurs s) (ha : matchAddedBytes.Occurs s)
    (hp : ¬ matchProcessed.Occurs s) :
    extractStats mc s = .fault indexFault := by
  obtain ⟨f, fs, hf⟩ := FindAll_of_Occurs _ s hf
  obtain ⟨a, as, ha⟩ := FindAll_of_Occurs _ s ha
  have lf : f.length = 4 := FindAll_head_length matchFileStats s f fs hf
  have la : a.length = 3 := FindAll_head_length matchAddedBytes s a as ha
  unfold extractStats
  simp only [hf, lf, ha, la, (FindAll_eq_nil_iff matchProcessed s).2 hp, ne_eq,
    not_true_eq_false, if_false]

/-- C1, on the code: when the `Files:` pattern does not occur in the text (the
empty text included), `extractStats` does not return at all: indexing the empty
match list is a run-time fault, so no error value is produced. -/
theorem extractStats_faults_without_files (mc : Machine) (s : String)
    (h : ¬ matchFileStats.Occurs s) :
    extractStats mc s = .fault indexFault ∧ ∀ r, extractStats mc s ≠ .ret r := by
  have hx := extractStats_fault_of_no_files mc s h
  refine ⟨hx, fun r hr => ?_⟩
  rw [hx] at hr
  exact GoResult.noConfusion hr

set_option maxRecDepth 100000 in
/-- C1 witness: the empty text. -/
theorem extractStats_faults_without_files_witness :
    ¬ matchFileStats.Occurs "" ∧ extractStats amd64 "" = .fault indexFault :=
  have h : ¬ matchFileStats.Occurs "" := (FindAll_eq_nil_iff matchFileStats "").1 (by decide!)
  ⟨h, (extractStats_faults_without_files amd64 "" h).1⟩

set_option maxRecDepth 100000 in
/-- C2: when all three patterns occur, `extractStats` returns a nil error and the
record with `Duration` 0, the file counts `Atoi` reads in groups 1 to 3 of the
first `Files:` match and in group 1 of the first `processed` match, and the byte
counts obtained from the first `Added to the repo:` and `processed` sizes by
`ParseFloat`, the float64 product with 1000, truncation to `int` and `convert`
with the matched unit. On the output of `Test_extractStats` the record is 56, 2,
2, 58, 173065216, 102624133120. -/
theorem extractStats_all_match (mc : Machine) :
    (∀ s : String, matchFileStats.Occurs s → matchAddedBytes.Occurs s →
      matchProcessed.Occurs s →
      ∃ f fs a as p ps,
        matchFileStats.FindAllStringSubmatch s (-1) = f :: fs
        ∧ matchAddedBytes.FindAllStringSubmatch s (-1) = a :: as
        ∧ matchProcessed.FindAllStringSubmatch s (-1) = p :: ps
        ∧ extractStats mc s = .ret (⟨F64.zero,
            (Atoi (f.getD 1 "")).1, (Atoi (f.getD 2 "")).1, (Atoi (f.getD 3 "")).1,
            (Atoi (p.getD 1 "")).1,
            convert (((ParseFloat (a.getD 1 "")).1.mul (F64.ofNat 1000)).toInt mc)
              (a.getD 2 ""),
            convert (((ParseFloat (p.getD 2 "")).1.mul (F64.ofNat 1000)).toInt mc)
              (p.getD 3 "")⟩, none))
    ∧ extractStats mc testOutput
        = .ret (⟨F64.zero, 56, 2, 2, 58, 173065216, 102624133120⟩, none) := by
  constructor
  · intro s hf ha hp
    obtain ⟨f, fs, hf⟩ := FindAll_of_Occurs _ s hf
    obtain ⟨a, as, ha⟩ := FindAll_of_Occurs _ s ha
    obtain ⟨p, ps, hp⟩ := FindAll_of_Occurs _ s hp
    exact ⟨f, fs, a, as, p, ps, hf, ha, hp, extractStats_of_matches mc s f a p fs as ps hf ha hp⟩
  · have hf : matchFileStats.FindAllStringSubmatch testOutput (-1) = testFiles :: [] := by
      decide!
    have ha : matchAddedBytes.FindAllStringSubmatch testOutput (-1) = testAdded :: [] := by
      decide!
    have hp : matchProcessed.FindAllStringSubmatch testOutput (-1) = testProcessed :: [] := by
      decide!
    rw [extractStats_of_matches mc testOutput _ _ _ _ _ _ hf ha hp]
    have e1 : (Atoi (testFiles.getD 1 "")).1 = 56 := by decide!
    have e2 : (Atoi (testFiles.getD 2 "")).1 = 2 := by decide!
    have e3 : (Atoi (testFiles.getD 3 "")).1 = 2 := by decide!
    have e4 : (Atoi (testProcessed.getD 1 "")).1 = 58 := by decide!
    have e5 : (ParseFloat (testAdded.getD 1 "")).1.mul (F64.ofNat 1000)
        = F64.fin (169009 * F64.one) := by decide!
    have e6 : (ParseFloat (testProcessed.getD 2 "")).1.mul (F64.ofNat 1000)
        = F64.fin (97870 * F64.one) := by decide!
    have e7 : convert ((169009 * F64.one / F64.one : Nat) : Int) (testAdded.getD 2 "")
        = 173065216 := by decide!
    have e8 : convert ((97870 * F64.one / F64.one : Nat) : Int) (testProcessed.getD 3 "")
        = 102624133120 := by decide!
    rw [e1, e2, e3, e4, e5, e6, toInt_fin mc _ (by decide!), toInt_fin mc _ (by decide!), e7, e8]

set_option maxRecDepth 100000 in
/-- C2 witness: the output of `Test_extractStats`. -/
theorem extractStats_all_match_witness :
    matchFileStats.Occurs testOutput ∧ matchAddedBytes.Occurs testOutput
      ∧ matchProcessed.Occurs testOutput
      ∧ ∃ f fs a as p ps,
        matchFileStats.FindAllStringSubmatch testOutput (-1) = f :: fs
        ∧ matchAddedBytes.FindAllStringSubmatch testOutput (-1) = a :: as
        ∧ matchProcessed.FindAllStringSubmatch testOutput (-1) = p :: ps
        ∧ extractStats amd64 testOutput = .ret (⟨F64.zero,
            (Atoi (f.getD 1 "")).1, (Atoi (f.getD 2 "")).1, (Atoi (f.getD 3 "")).1,
            (Atoi (p.getD 1 "")).1,
            convert (((ParseFloat (a.getD 1 "")).1.mul (F64.ofNat 1000)).toInt amd64)
              (a.getD 2 ""),
            convert (((ParseFloat (p.getD 2 "")).1.mul (F64.ofNat 1000)).toInt amd64)
              (p.getD 3 "")⟩, none) :=
  have hf : matchFileStats.Occurs testOutput :=
    Occurs_of_FindAll _ _ testFiles [] (by decide!)
  have ha : matchAddedBytes.Occurs testOutput :=
    Occurs_of_FindAll _ _ testAdded [] (by decide!)
  have hp : matchProcessed.Occurs testOutput :=
    Occurs_of_FindAll _ _ testProcessed [] (by decide!)
  ⟨hf, ha, hp, (extractStats_all_match amd64).1 testOutput hf ha hp⟩

/-- C7, on the code: when the `Files:` pattern occurs and `Added to the repo:`
does not, or both occur and the `processed` pattern does not, `extractStats`
does not return: indexing the empty match list of the absent pattern is a
run-time fault, so neither an error nor a partial record comes back. -/
theorem extractStats_faults_on_later_pattern (mc : Machine) (s : String) :
    (matchFileStats.Occurs s → ¬ matchAddedBytes.Occurs s →
      extractStats mc s = .fault indexFault)
    ∧ (matchFileStats.Occurs s → matchAddedBytes.Occurs s → ¬ matchProcessed.Occurs s →
      extractStats mc s = .fault indexFault) :=
  ⟨extractStats_fault_of_no_added mc s, extractStats_fault_of_no_processed mc s⟩

set_option maxRecDepth 100000 in
/-- C7 witness: a text with the `Files:` line only. -/
theorem extractStats_faults_on_later_pattern_witness :
    matchFileStats.Occurs filesOnlyOutput ∧ ¬ matchAddedBytes.Occurs filesOnlyOutput
      ∧ extractStats amd64 filesOnlyOutput = .fault indexFault :=
  have hf : matchFileStats.Occurs filesOnlyOutput :=
    Occurs_of_FindAll _ _ ["Files: 1 new, 2 changed, 3 unmodified", "1", "2", "3"] []
      (by decide!)
  have ha : ¬ matchAddedBytes.Occurs filesOnlyOutput :=
    (FindAll_eq_nil_iff matchAddedBytes filesOnlyOutput).1 (by decide!)
  ⟨hf, ha, (extractStats_faults_on_later_pattern amd64 filesOnlyOutput).1 hf ha⟩

set_option maxRecDepth 100000 in
/-- C8, on the code: the text `1.001` parses to the float64 just below 1.001, the
float64 product with 1000 is below 1001 and truncates to 1000, so `1.001 KiB`
yields 1000 * 1024 = 1024000 bytes and not 1001 * 1024 = 1025024; the sizes of
the test, `169.009` and `97.870`, do give 169009 and 97870. -/
theorem thousandths_truncated (mc : Machine) :
    (∃ u, (ParseFloat "1.001").1.mul (F64.ofNat 1000) = F64.fin u
      ∧ 1000 * F64.one < u ∧ u < 1001 * F64.one)
    ∧ ((ParseFloat "1.001").1.mul (F64.ofNat 1000)).toInt mc = 1000
    ∧ ((ParseFloat "169.009").1.mul (F64.ofNat 1000)).toInt mc = 169009
    ∧ ((ParseFloat "97.870").1.mul (F64.ofNat 1000)).toInt mc = 97870
    ∧ extractStats amd64 thousandthOutput
        = .ret (⟨F64.zero, 1, 0, 0, 1, 1024000, 1024000⟩, none)
    ∧ (1001 : Int) * 2 ^ 10 = 1025024 := by
  have e1 : (ParseFloat "1.001").1.mul (F64.ofNat 1000)
      = F64.fin (1000 * F64.one + 2 ^ 1074 - 2 ^ 1031) := by decide!
  have e2 : (ParseFloat "169.009").1.mul (F64.ofNat 1000) = F64.fin (169009 * F64.one) := by
    decide!
  have e3 : (ParseFloat "97.870").1.mul (F64.ofNat 1000) = F64.fin (97870 * F64.one) := by
    decide!
  refine ⟨⟨_, e1, by decide!, by decide!⟩, ?_, ?_, ?_, by decide!, by decide⟩
  · rw [e1, toInt_fin mc _ (by decide!)]
    decide!
  · rw [e2, toInt_fin mc _ (by decide!)]
    decide!
  · rw [e3, toInt_fin mc _ (by decide!)]
    decide!

/-! ## Unit conversion -/

theorem wrapInt64_of_range (z : Int) (h0 : 0 ≤ z) (h1 : z ≤ maxInt64) : wrapInt64 z = z := by
  unfold wrapInt64
  unfold maxInt64 at h1
  omega

theorem convert_other (b : Int) (u : String) (h1 : u ≠ "TiB") (h2 : u ≠ "GiB")
    (h3 : u ≠ "MiB") (h4 : u ≠ "KiB") : convert b u = 0 := by
  unfold convert
  split <;> simp_all

/-- C3, as the code has it: for every magnitude `m ≥ 0`, `convert m u` is the
product `m * 2^k` reduced to the 64-bit `int` (`k` = 40, 30, 20, 10 for TiB, GiB,
MiB, KiB), hence exactly `m * 2^k` whenever that product is at most `2^63 - 1`;
for every other unit string it is 0. -/
theorem convert_scales_within_int (m : Int) (hm : 0 ≤ m) :
    (convert m "TiB" = wrapInt64 (m * 2 ^ 40) ∧ (m * 2 ^ 40 ≤ maxInt64 → convert m "TiB" = m * 2 ^ 40))
    ∧ (convert m "GiB" = wrapInt64 (m * 2 ^ 30) ∧ (m * 2 ^ 30 ≤ maxInt64 → convert m "GiB" = m * 2 ^ 30))
    ∧ (convert m "MiB" = wrapInt64 (m * 2 ^ 20) ∧ (m * 2 ^ 20 ≤ maxInt64 → convert m "MiB" = m * 2 ^ 20))
    ∧ (convert m "KiB" = wrapInt64 (m * 2 ^ 10) ∧ (m * 2 ^ 10 ≤ maxInt64 → convert m "KiB" = m * 2 ^ 10))
    ∧ (∀ u : String, u ≠ "TiB" → u ≠ "GiB" → u ≠ "MiB" → u ≠ "KiB" → convert m u = 0) := by
  refine ⟨⟨rfl, fun h => ?_⟩, ⟨rfl, fun h => ?_⟩, ⟨rfl, fun h => ?_⟩, ⟨rfl, fun h => ?_⟩, ?_⟩
  · exact wrapInt64_of_range _ (by positivity) h
  · exact wrapInt64_of_range _ (by positivity) h
  · exact wrapInt64_of_range _ (by positivity) h
  · exact wrapInt64_of_range _ (by positivity) h
  · intro u h1 h2 h3 h4
    exact convert_other m u h1 h2 h3 h4

/-- C3 witness: the magnitude 169009 of the test, in KiB and in an unknown unit. -/
theorem convert_scales_within_int_witness :
    convert 169009 "KiB" = 173065216 ∧ convert 169009 "kib" = 0 := by
  have h := convert_scales_within_int 169009 (by decide)
  refine ⟨?_, h.2.2.2.2 "kib" (by decide) (by decide) (by decide) (by decide)⟩
  rw [h.2.2.2.1.2 (by decide)]
  decide

/-- C3 as stated fails: the magnitude `2^23` in TiB is `2^63`, one more than the
largest `int`, and `convert` returns the least `int` instead. -/
theorem convert_TiB_wraps :
    (0 : Int) ≤ 8388608 ∧ convert 8388608 "TiB" = -9223372036854775808
      ∧ convert 8388608 "TiB" ≠ 8388608 * 2 ^ 40 := by
  decide

/-! ## The backup cycle -/

theorem runStats_returned (w : World) (st st' : State) (out : String)
    (h : backup.runStats w st out = .returned st') :
    st'.backupsTotal = st.backupsTotal + 1 ∧ st'.backupsSuccessful = st.backupsSuccessful + 1
      ∧ st'.backupsFailed = st.backupsFailed := by
  unfold backup.runStats at h
  cases hx : extractStats w.machine out with
  | fault msg => simp [hx] at h
  | ret p =>
    simp only [hx, RunResult.returned.injEq] at h
    subst h
    simp [backup.ObserveStats, State.incTotal, State.incSuccessful]

theorem Run_returned (b : backup) (w : World) (st st' : State)
    (h : b.Run w st = .returned st') :
    st'.backupsTotal = st.backupsTotal + 1
      ∧ ((st'.backupsSuccessful = st.backupsSuccessful + 1 ∧ st'.backupsFailed = st.backupsFailed)
        ∨ (st'.backupsSuccessful = st.backupsSuccessful ∧ st'.backupsFailed = st.backupsFailed + 1)) := by
  unfold backup.Run backup.runBackup at h
  by_cases hp : b.PreCommand.length > 0 <;> by_cases hq : b.PostCommand.length > 0 <;>
    cases hE : w.executePreCommand b <;> cases hR : (w.restic b.args).err <;>
    cases hP : w.executePostCommand b <;>
    simp only [hp, hq, hE, hR, hP, if_true, if_false, RunResult.returned.injEq] at h <;>
    first
    | (subst h; simp [State.incFailed, State.incTotal, State.exec])
    | (have h' := runStats_returned _ _ _ _ h
       simp only [State.exec] at h'
       omega)

/-- C5: when the configured pre-command, the backup command or the configured
post-command fails, `Run` returns with the failed and the total counter one
higher, the successful counter and every histogram unchanged (no statistics are
parsed or observed, whatever the output was), and the subprocesses started end
with the failing one: after a failing pre-command `restic` is not started, after
a failing `restic` the post-command is not started. -/
theorem Run_failure_counts (b : backup) (w : World) (st : State)
    (h : (b.PreCommand.length > 0 ∧ ∃ e, w.executePreCommand b = .error e)
      ∨ (w.restic b.args).err ≠ none
      ∨ (b.PostCommand.length > 0 ∧ ∃ e, w.executePostCommand b = .error e)) :
    ∃ st', b.Run w st = .returned st'
      ∧ st'.backupsFailed = st.backupsFailed + 1
      ∧ st'.backupsTotal = st.backupsTotal + 1
      ∧ st'.backupsSuccessful = st.backupsSuccessful
      ∧ st'.sameObservations st
      ∧ ((b.PreCommand.length > 0 ∧ ∃ e, w.executePreCommand b = .error e) →
          st'.calls = st.calls ++ [.preCommand])
      ∧ (¬ (b.PreCommand.length > 0 ∧ ∃ e, w.executePreCommand b = .error e) →
          (w.restic b.args).err ≠ none →
          st'.calls = st.calls ++ b.preCalls ++ [.restic b.args])
      ∧ (¬ (b.PreCommand.length > 0 ∧ ∃ e, w.executePreCommand b = .error e) →
          (w.restic b.args).err = none →
          st'.calls = st.calls ++ b.preCalls ++ [.restic b.args, .postCommand]) := by
  unfold backup.Run backup.runBackup backup.preCalls
  by_cases hp : b.PreCommand.length > 0 <;> by_cases hq : b.PostCommand.length > 0 <;>
    cases hE : w.executePreCommand b <;> cases hR : (w.restic b.args).err <;>
    cases hP : w.executePostCommand b <;>
    simp_all [State.incFailed, State.incTotal, State.exec, State.sameObservations]

/-- C5 witness: `restic` exits non-zero. -/
theorem Run_failure_counts_witness :
    ∃ st', sampleBackup.Run failingWorld State.init = .returned st'
      ∧ st'.backupsFailed = 1 ∧ st'.backupsTotal = 1 ∧ st'.backupsSuccessful = 0
      ∧ st'.calls = [.restic ["backup", "./test/"]] := by
  obtain ⟨st', h1, h2, h3, h4, -, -, h6, -⟩ :=
    Run_failure_counts sampleBackup failingWorld State.init (Or.inr (Or.inl (by decide)))
  exact ⟨st', h1, h2, h3, h4, h6 (fun h => absurd h.1 (by decide)) (by decide)⟩

theorem runCycles_returned (b : backup) (ws : List World) :
    ∀ st st', runCycles b ws st = .returned st' →
      st'.backupsTotal = st.backupsTotal + ws.length
      ∧ st'.backupsSuccessful + st'.backupsFailed
        = st.backupsSuccessful + st.backupsFailed + ws.length := by
  induction ws with
  | nil =>
    intro st st' h
    simp only [runCycles, RunResult.returned.injEq] at h
    subst h
    simp
  | cons w ws ih =>
    intro st st' h
    unfold runCycles at h
    cases hr : b.Run w st with
    | faulted s1 msg => simp [hr] at h
    | returned s1 =>
      simp only [hr] at h
      have h1 := Run_returned b w st s1 hr
      have h2 := ih s1 st' h
      simp only [List.length_cons]
      omega

/-- C10: whenever `Run` returns, the total counter is one higher and exactly one
of the successful and failed counters is one higher, the other unchanged; so
`total = successful + failed` is kept by a cycle, and it holds (with `total` the
number of cycles) after any sequence of returning cycles from all-zero
counters. -/
theorem Run_counter_invariant (b : backup) :
    (∀ (w : World) (st st' : State), b.Run w st = .returned st' →
      st'.backupsTotal = st.backupsTotal + 1
      ∧ ((st'.backupsSuccessful = st.backupsSuccessful + 1
            ∧ st'.backupsFailed = st.backupsFailed)
        ∨ (st'.backupsSuccessful = st.backupsSuccessful
            ∧ st'.backupsFailed = st.backupsFailed + 1)))
    ∧ (∀ (w : World) (st st' : State), b.Run w st = .returned st' →
      st.backupsTotal = st.backupsSuccessful + st.backupsFailed →
      st'.backupsTotal = st'.backupsSuccessful + st'.backupsFailed)
    ∧ (∀ (ws : List World) (st' : State), runCycles b ws State.init = .returned st' →
      st'.backupsTotal = st'.backupsSuccessful + st'.backupsFailed
      ∧ st'.backupsTotal = ws.length) := by
  refine ⟨fun w st st' h => Run_returned b w st st' h, fun w st st' h h0 => ?_,
    fun ws st' h => ?_⟩
  · have := Run_returned b w st st' h
    omega
  · have := runCycles_returned b ws State.init st' h
    simp only [State.init] at this
    omega

set_option maxRecDepth 100000 in
/-- C10 witness: a cycle that returns, with the test output. -/
theorem Run_counter_invariant_witness :
    sampleBackup.Run sampleWorld State.init = .returned sampleAfter
      ∧ sampleAfter.backupsTotal = State.init.backupsTotal + 1
      ∧ ((sampleAfter.backupsSuccessful = State.init.backupsSuccessful + 1
            ∧ sampleAfter.backupsFailed = State.init.backupsFailed)
        ∨ (sampleAfter.backupsSuccessful = State.init.backupsSuccessful
            ∧ sampleAfter.backupsFailed = State.init.backupsFailed + 1)) :=
  have h : sampleBackup.Run sampleWorld State.init = .returned sampleAfter := by decide!
  ⟨h, (Run_counter_invariant sampleBackup).1 sampleWorld State.init sampleAfter h⟩

/-- C4, on the code: when the pre-command (if configured), `restic` and the
post-command (if configured) all succeed and the `Files:` pattern does not occur
in the captured standard output (as when none of the three patterns occurs),
`Run` does not complete the cycle: the fault of `extractStats` unwinds it with
every counter and every histogram as before the cycle. -/
theorem Run_faults_on_unrecognised_output (b : backup) (w : World) (st : State)
    (hpre : b.PreCommand.length > 0 → ∃ o, w.executePreCommand b = .ok o)
    (hrun : (w.restic b.args).err = none)
    (hpost : b.PostCommand.length > 0 → ∃ o, w.executePostCommand b = .ok o)
    (hout : ¬ matchFileStats.Occurs (w.restic b.args).stdout) :
    ∃ st', b.Run w st = .faulted st' indexFault
      ∧ st'.backupsTotal = st.backupsTotal
      ∧ st'.backupsSuccessful = st.backupsSuccessful
      ∧ st'.backupsFailed = st.backupsFailed
      ∧ st'.sameObservations st := by
  have hx := extractStats_fault_of_no_files w.machine _ hout
  unfold backup.Run backup.runBackup backup.runStats
  by_cases hp : b.PreCommand.length > 0 <;> by_cases hq : b.PostCommand.length > 0
  · obtain ⟨o, ho⟩ := hpre hp
    obtain ⟨o', ho'⟩ := hpost hq
    simp [hp, hq, ho, ho', hrun, hx, State.exec, State.sameObservations]
  · obtain ⟨o, ho⟩ := hpre hp
    simp [hp, hq, ho, hrun, hx, State.exec, State.sameObservations]
  · obtain ⟨o', ho'⟩ := hpost hq
    simp [hp, hq, ho', hrun, hx, State.exec, State.sameObservations]
  · simp [hp, hq, hrun, hx, State.exec, State.sameObservations]

set_option maxRecDepth 100000 in
/-- C4 witness: every command succeeds and `restic` prints nothing. -/
theorem Run_faults_on_unrecognised_output_witness :
    ∃ st', bareBackup.Run silentWorld State.init = .faulted st' indexFault
      ∧ st'.backupsTotal = 0 ∧ st'.backupsSuccessful = 0 ∧ st'.backupsFailed = 0
      ∧ st'.sameObservations State.init :=
  Run_faults_on_unrecognised_output bareBackup silentWorld State.init
    (fun h => absurd h (by decide)) rfl (fun h => absurd h (by decide))
    ((FindAll_eq_nil_iff matchFileStats "").1 (by decide!))

/-! ## The argument list -/

theorem splitOnChar_ne_nil (sep : Char) (l : List Char) : splitOnChar sep l ≠ [] := by
  cases l with
  | nil => simp [splitOnChar]
  | cons c cs =>
    unfold splitOnChar
    by_cases h : c = sep
    · simp [h]
    · simp only [h, if_false]
      cases splitOnChar sep cs <;> simp

theorem intercalate_splitOnChar (sep : Char) (l : List Char) :
    List.intercalate [sep] (splitOnChar sep l) = l := by
  induction l with
  | nil => simp [splitOnChar, List.intercalate]
  | cons c cs ih =>
    unfold splitOnChar
    have hne := splitOnChar_ne_nil sep cs
    cases hs : splitOnChar sep cs with
    | nil => exact absurd hs hne
    | cons q qs =>
      rw [hs] at ih
      by_cases h : c = sep
      · simp only [h, if_true]
        simp only [List.intercalate, List.intersperse_cons_cons, List.flatten_cons,
          List.nil_append, List.singleton_append] at ih ⊢
        rw [ih]
      · simp only [h, if_false]
        cases qs with
        | nil =>
          simp only [List.intercalate, List.intersperse_single, List.flatten_cons,
            List.flatten_nil, List.append_nil] at ih ⊢
          rw [ih]
        | cons q' qs' =>
          simp only [List.intercalate, List.intersperse_cons_cons, List.flatten_cons,
            List.cons_append] at ih ⊢
          rw [ih]

theorem not_mem_splitOnChar (sep : Char) (l : List Char) :
    ∀ q ∈ splitOnChar sep l, sep ∉ q := by
  induction l with
  | nil => simp [splitOnChar]
  | cons c cs ih =>
    unfold splitOnChar
    by_cases h : c = sep
    · simp only [h, if_true, List.mem_cons]
      rintro q (rfl | hq)
      · simp
      · exact ih q hq
    · simp only [h, if_false]
      cases hs : splitOnChar sep cs with
      | nil => simp [Ne.symm h]
      | cons q' qs =>
        rw [hs] at ih
        simp only [List.mem_cons]
        rintro q (rfl | hq)
        · simp only [List.mem_cons, not_or]
          exact ⟨Ne.symm h, ih q' (List.mem_cons_self _ _)⟩
        · exact ih q (List.mem_cons_of_mem _ hq)

theorem length_splitOnChar (sep : Char) (l : List Char) :
    (splitOnChar sep l).length = l.count sep + 1 := by
  induction l with
  | nil => simp [splitOnChar]
  | cons c cs ih =>
    unfold splitOnChar
    by_cases h : c = sep
    · simp [h, ih]
    · have hc : (c == sep) = false := by simpa using h
      simp only [h, if_false, List.count_cons, hc, Bool.false_eq_true, add_zero]
      cases hs : splitOnChar sep cs with
      | nil => exact absurd hs (splitOnChar_ne_nil sep cs)
      | cons q qs =>
        rw [hs] at ih
        simpa using ih

/-- C9, as the code has it: the argument list is "backup", then "-o" and the
sync-tool argument string exactly when that string is not empty, then the pieces
of the extra-argument string cut at every single space character: joined by
single spaces the pieces give the string back, no piece contains a space, and
there is one piece more than there are spaces (so an empty piece stands between
two adjacent spaces, and tabs or line breaks do not separate). -/
theorem args_split_at_spaces (b : backup) :
    ∃ pieces : List String,
      b.args = ["backup"] ++ (if b.RcloneArgs = "" then [] else ["-o", b.RcloneArgs]) ++ pieces
      ∧ List.intercalate [' '] (pieces.map String.data) = b.Args.data
      ∧ (∀ q ∈ pieces, ' ' ∉ q.data)
      ∧ pieces.length = b.Args.data.count ' ' + 1 := by
  refine ⟨Split b.Args ' ', ?_, ?_, ?_, ?_⟩
  · unfold backup.args
    have hlen : b.RcloneArgs.length > 0 ↔ ¬ b.RcloneArgs = "" := by
      cases hr : b.RcloneArgs with
      | mk l => cases l <;> simp [String.length, String.ext_iff]
    by_cases h : b.RcloneArgs = ""
    · simp [h]
    · simp [h, hlen.2 h]
  · unfold Split
    rw [List.map_map]
    have : (String.data ∘ String.mk) = id := rfl
    rw [this, List.map_id]
    exact intercalate_splitOnChar ' ' b.Args.data
  · unfold Split
    intro q hq
    obtain ⟨l, hl, rfl⟩ := List.mem_map.1 hq
    exact not_mem_splitOnChar ' ' b.Args.data l hl
  · unfold Split
    rw [List.length_map]
    exact length_splitOnChar ' ' b.Args.data

/-- C9 as stated fails: without extra arguments the list still carries one empty
argument, where splitting on white space into fields gives none; and two
adjacent spaces give an empty argument. -/
theorem args_empty_extra :
    bareBackup.Args = "" ∧ bareBackup.args = ["backup", ""]
      ∧ bareBackup.argsBySpec = ["backup"]
      ∧ bareBackup.args ≠ bareBackup.argsBySpec
      ∧ ({ bareBackup with Args := "a  b" } : backup).args = ["backup", "a", "", "b"]
      ∧ ({ bareBackup with Args := "a  b" } : backup).argsBySpec = ["backup", "a", "b"] := by
  decide

end ResticRobot
